import Mathlib

/-!
Verification development for the css-modules-types-generator repository.

The definitions below are a shallow embedding of the core pipeline found in
src/index.ts (name formatting, declaration emission, output-path computation,
batch driving with per-file error isolation) and of the watch coordinator found
in the CLI module (directory inference, unlink handling).  External
collaborators (glob discovery, the sass compiler, the postcss-modules scoping
engine, the filesystem, and the Node posix path module) are modelled as
explicit parameters or as small pure functions following their documented
behaviour; everything that is code of the repository is translated directly
from the source.  JavaScript string case conversion is modelled on the ASCII
range, which covers every class name the specification discusses.
-/

set_option autoImplicit false

/-! ### Basic character helpers (ASCII model of the JS string primitives) -/

def isUpperAZ (c : Char) : Bool := 65 ≤ c.toNat && c.toNat ≤ 90

def isLowerAZ (c : Char) : Bool := 97 ≤ c.toNat && c.toNat ≤ 122

def isDigit09 (c : Char) : Bool := 48 ≤ c.toNat && c.toNat ≤ 57

def lcChar (c : Char) : Char :=
  if 65 ≤ c.toNat && c.toNat ≤ 90 then Char.ofNat (c.toNat + 32) else c

def ucChar (c : Char) : Char :=
  if 97 ≤ c.toNat && c.toNat ≤ 122 then Char.ofNat (c.toNat - 32) else c

def lowerAll (s : String) : String := ⟨s.data.map lcChar⟩

def lowerFirst (s : String) : String :=
  match s.data with
  | [] => ("")
  | c :: r => ⟨lcChar c :: r⟩

def upperFirst (s : String) : String :=
  match s.data with
  | [] => ("")
  | c :: r => ⟨ucChar c :: r⟩

def upperFirstRestLower (s : String) : String :=
  match s.data with
  | [] => ("")
  | c :: r => ⟨ucChar c :: r.map lcChar⟩

/-- The single-quote character, kept out of string literals. -/
def squote : String := ⟨[Char.ofNat 39]⟩

def quoteTok (s : String) : String := squote ++ s ++ squote

/-! ### Substring test (model of the JS String.prototype.includes) -/

def leadsWith : List Char → List Char → Bool
  | [], _ => true
  | _ :: _, [] => false
  | a :: as, b :: bs => a == b && leadsWith as bs

def hasSubL (needle : List Char) : List Char → Bool
  | [] => needle.isEmpty
  | c :: t => leadsWith needle (c :: t) || hasSubL needle t

def hasSub (needle hay : String) : Bool := hasSubL needle.data hay.data

def endsWithL (suffix hay : List Char) : Bool := leadsWith suffix.reverse hay.reverse

/-! ### Splitting into groups (model of the JS String.prototype.split) -/

def splitGroups (p : Char → Bool) : List Char → List (List Char)
  | [] => [[]]
  | c :: cs =>
    let r := splitGroups p cs
    if p c then [] :: r
    else
      match r with
      | [] => [[c]]
      | g :: gs => (c :: g) :: gs

def joinWith (sep : Char) : List (List Char) → List Char
  | [] => []
  | g :: gs =>
    match gs with
    | [] => g
    | _ :: _ => g ++ sep :: joinWith sep gs

/-! ### Configuration enumerations (GeneratorOptions in src/index.ts) -/

inductive ExportType where
  | default
  | named
  | both
deriving DecidableEq

inductive NameFormat where
  | camelCase
  | dashes
  | original
deriving DecidableEq

/-! ### Name formatter (formatClassName in src/index.ts) -/

def isDelimCh (c : Char) : Bool := c == '-' || c == '_'

/-- Embeds the source expression name.split(re).filter(Boolean) where re is the
regex matching one or more dashes or underscores: splitting on each single
delimiter and then discarding empty segments yields exactly the same list as
splitting on delimiter runs. -/
def splitParts (name : String) : List String :=
  ((splitGroups isDelimCh name.data).filter (fun g => !g.isEmpty)).map
    (fun g => (⟨g⟩ : String))

/-- Embeds the shouty-segment regex test of the source (entirely upper-case
letters, digits or underscores, nonempty). -/
def shouty (s : String) : Bool :=
  !s.data.isEmpty && s.data.all (fun c => isUpperAZ c || isDigit09 c || c == '_')

def identStart (c : Char) : Bool := isUpperAZ c || isLowerAZ c || c == '_' || c == '$'

def identChar (c : Char) : Bool := identStart c || isDigit09 c

/-- Embeds the case-insensitive bare-identifier regex of the source. -/
def validIdent (s : String) : Bool :=
  match s.data with
  | [] => false
  | c :: r => identStart c && r.all identChar

/-- The per-segment camelCase transformation of the source: the first segment is
fully lower-cased when shouty, else only its first character; every later
segment gets an upper-cased first character, with the remainder lower-cased
when the segment is shouty. -/
def camelSegs : List String → List String
  | [] => []
  | p :: rest =>
    (if shouty p then lowerAll p else lowerFirst p) ::
      rest.map (fun q => if shouty q then upperFirstRestLower q else upperFirst q)

def concatAll (l : List String) : String := l.foldl (· ++ ·) ("")

def camelConcat (parts : List String) : String := concatAll (camelSegs parts)

/-- Embeds formatClassName from src/index.ts. -/
def formatClassName : NameFormat → String → String
  | NameFormat.camelCase, name =>
    let parts := splitParts name
    if parts.isEmpty then name
    else
      let camel := camelConcat parts
      if validIdent camel then camel else quoteTok camel
  | NameFormat.dashes, name => quoteTok name
  | NameFormat.original, name => if validIdent name then name else quoteTok name

/-- The camelCase convention exactly as the claim words it: split, discard empty
segments, transform, concatenate, and quote whenever the concatenation is not a
valid bare identifier - with no special case for an empty segment list. -/
def camelPerClaim (name : String) : String :=
  let camel := camelConcat (splitParts name)
  if validIdent camel then camel else quoteTok camel

/-! ### Declaration emitter (generateTypeDefinition in src/index.ts) -/

def joinNL : List String → String
  | [] => ("")
  | s :: rest =>
    match rest with
    | [] => s
    | _ :: _ => s ++ ("\n") ++ joinNL rest

/-- The aggregate block shared verbatim by the default and both branches of the
source template literals. -/
def defaultBlock (classNamesType : String) : String :=
  ("export interface CssModuleClasses \x7b\n") ++ classNamesType ++
  ("\n\x7d\n\nexport type ClassNames = keyof CssModuleClasses;\n\ndeclare const classes: CssModuleClasses;\nexport default classes;\n")

def formattedNames (nameFormat : NameFormat) (classNames : List String) : List String :=
  classNames.map (formatClassName nameFormat)

/-- The member list of the aggregate type, or the index-signature fallback when
no class name was collected. -/
def classNamesTypeOf (nameFormat : NameFormat) (classNames : List String) : String :=
  if (formattedNames nameFormat classNames).length > 0 then
    joinNL ((formattedNames nameFormat classNames).map
      (fun n => ("  readonly ") ++ n ++ (": string;")))
  else ("  readonly [key: string]: string;")

/-- The standalone declarations of the named branch. -/
def namedDecls (nameFormat : NameFormat) (classNames : List String) : String :=
  joinNL ((formattedNames nameFormat classNames).map
    (fun n => ("export declare const ") ++ n ++ (": string;")))

/-- The standalone declarations appended by the both branch. -/
def constDecls (nameFormat : NameFormat) (classNames : List String) : String :=
  joinNL ((formattedNames nameFormat classNames).map
    (fun n => ("export const ") ++ n ++ (": string;")))

/-- Embeds generateTypeDefinition from src/index.ts.  The class-name set is
modelled as a list in first-seen order, matching the iteration order of the JS
Set the extractor fills. -/
def generateTypeDefinition (exportType : ExportType) (nameFormat : NameFormat)
    (classNames : List String) : String :=
  match exportType with
  | ExportType.named => namedDecls nameFormat classNames
  | ExportType.both =>
    defaultBlock (classNamesTypeOf nameFormat classNames) ++ ("\n") ++
      constDecls nameFormat classNames ++ ("\n")
  | ExportType.default => defaultBlock (classNamesTypeOf nameFormat classNames)

/-! ### Posix path model (the Node path collaborator used by the source)

Paths are strings; segment lists are obtained by splitting on the slash.
These definitions follow the documented posix behaviour of the Node path
module for the operations the source uses: dirname, extname, join, relative
and resolve (with an absolute working directory, as process.cwd always is). -/

def isSlashCh (c : Char) : Bool := c == '/'

def splitSlashL (cs : List Char) : List (List Char) := splitGroups isSlashCh cs

def isAbsolutePath (p : String) : Bool := p.data.head? == some '/'

/-- One normalisation step over a segment: empty and dot segments vanish, a
dot-dot segment pops the previous real segment (or is kept at the start of a
relative path), anything else is appended. -/
def normStep (abs : Bool) (acc : List (List Char)) (g : List Char) : List (List Char) :=
  if g = [] ∨ g = ['.'] then acc
  else if g = ['.', '.'] then
    if acc = [] then (if abs then [] else [['.', '.']])
    else if acc.getLast? = some ['.', '.'] then acc ++ [['.', '.']]
    else acc.dropLast
  else acc ++ [g]

def normSegs (abs : Bool) (gs : List (List Char)) : List (List Char) :=
  gs.foldl (normStep abs) []

/-- Models Node posix path.resolve(cwd, p) at the segment level, for an
absolute working directory. -/
def resolveSegs (cwd p : String) : List (List Char) :=
  if isAbsolutePath p then normSegs true (splitSlashL p.data)
  else normSegs true (splitSlashL (cwd.data ++ '/' :: p.data))

def pathResolve (cwd p : String) : String :=
  ⟨'/' :: joinWith '/' (resolveSegs cwd p)⟩

def dropCommonC : List (List Char) → List (List Char) → List (List Char) × List (List Char)
  | a :: as, b :: bs => if a = b then dropCommonC as bs else (a :: as, b :: bs)
  | as, bs => (as, bs)

/-- Models Node posix path.relative(cwd, p): both arguments are resolved
against the working directory, the common prefix is dropped, and each leftover
segment on the cwd side becomes a dot-dot segment. -/
def pathRelative (cwd p : String) : String :=
  ⟨joinWith '/'
    (((dropCommonC (resolveSegs cwd cwd) (resolveSegs cwd p)).1.map (fun _ => ['.', '.'])) ++
      (dropCommonC (resolveSegs cwd cwd) (resolveSegs cwd p)).2)⟩

def joinedChars (a b : String) : List Char :=
  if a.data.isEmpty then b.data
  else if b.data.isEmpty then a.data
  else a.data ++ '/' :: b.data

def pathJoinCore (s : List Char) : String :=
  if (normSegs (s.head? == some '/') (splitSlashL s)).isEmpty then
    (if s.head? == some '/' then ("/") else ("."))
  else if s.head? == some '/' then ⟨'/' :: joinWith '/' (normSegs true (splitSlashL s))⟩
  else ⟨joinWith '/' (normSegs false (splitSlashL s))⟩

/-- Models Node posix path.join for two arguments: concatenate with a slash and
normalise, preserving whether the result is absolute. -/
def pathJoin (a b : String) : String := pathJoinCore (joinedChars a b)

/-- Models Node posix path.dirname: scan from the end, skip trailing slashes,
drop the basename, and handle the root specially. -/
def dirnameC (cs : List Char) : List Char :=
  let hasRoot : Bool := match cs with | '/' :: _ => true | _ => false
  let r1 := cs.reverse.dropWhile (fun c => c == '/')
  let r2 := r1.dropWhile (fun c => c != '/')
  match r2 with
  | [] => if hasRoot then ['/'] else ['.']
  | _ :: rest =>
    if rest = [] then ['/']
    else if rest = ['/'] then ['/', '/']
    else rest.reverse

def dirname (p : String) : String := ⟨dirnameC p.data⟩

/-- Models Node posix path.extname: the suffix of the basename from its last
dot, unless that dot is the first character of the basename. -/
def extname (p : String) : String :=
  let rb := p.data.reverse.takeWhile (fun c => c != '/')
  let i := rb.takeWhile (fun c => c != '.')
  match rb.drop i.length with
  | '.' :: rest => if rest = [] then ("") else ⟨'.' :: i.reverse⟩
  | _ => ("")

/-! ### Output-path rule (getOutputPath in src/index.ts) -/

/-- Embeds getOutputPath from src/index.ts, with the working directory made an
explicit parameter. -/
def getOutputPath (output cwd filePath : String) : String :=
  if output = ("auto") then filePath ++ (".d.ts")
  else pathJoin output (pathRelative cwd filePath ++ (".d.ts"))

/-! ### Batch driver (generate and processFile in src/index.ts)

The collaborators reached from processFile are bundled in an environment of
fallible functions; console output and filesystem writes are recorded as an
event trace so that statements about error isolation and about the influence
of the debug flag can be made. -/

inductive Ev where
  | info (msg : String)
  | errLog (msg : String) (err : String)
  | write (path : String) (content : String)
deriving DecidableEq

structure Env where
  glob : String → Except String (List String)
  compileScss : String → Except String String
  readFile : String → Except String String
  extract : String → String → Except String (List String)
  writeFile : String → String → Except String Unit
  cwd : String

structure Opts where
  pattern : String
  output : String
  watchEnabled : Bool
  exportType : ExportType
  nameFormat : NameFormat
  debug : Bool

structure RawFileOpts where
  output : Option String
  watchEnabled : Option Bool
  exportType : Option ExportType
  nameFormat : Option NameFormat
  debug : Option Bool

structure RawOpts extends RawFileOpts where
  pattern : String

/-- Embeds the constructor of CssModulesTypesGenerator: every option receives
its default, with the JS or-operator treating an empty output string as
missing. -/
def resolveOptions (r : RawOpts) : Opts :=
  { pattern := r.pattern
    output := match r.output with
      | some s => if s = ("") then ("auto") else s
      | none => ("auto")
    watchEnabled := r.watchEnabled.getD false
    exportType := r.exportType.getD ExportType.default
    nameFormat := r.nameFormat.getD NameFormat.camelCase
    debug := r.debug.getD false }

def isScssOrSass (filePath : String) : Bool :=
  extname filePath = (".scss") || extname filePath = (".sass")

/-- Embeds processFile from src/index.ts.  The whole body sits in a try/catch,
so the function is total: any collaborator failure becomes an error log entry
naming the file, and never escapes. -/
def processFile (o : Opts) (env : Env) (filePath : String) : List Ev :=
  let d1 := if o.debug then [Ev.info (("Processing file: ") ++ filePath)] else []
  let d2 :=
    if o.debug then
      if isScssOrSass filePath then [Ev.info (("Compiling SCSS file: ") ++ filePath)]
      else [Ev.info (("Reading CSS file: ") ++ filePath)]
    else []
  let loadRes :=
    if isScssOrSass filePath then env.compileScss filePath else env.readFile filePath
  d1 ++ d2 ++
    match loadRes with
    | Except.error e => [Ev.errLog (("Error processing ") ++ filePath ++ (":")) e]
    | Except.ok css =>
      match env.extract css filePath with
      | Except.error e => [Ev.errLog (("Error processing ") ++ filePath ++ (":")) e]
      | Except.ok classNames =>
        let td := generateTypeDefinition o.exportType o.nameFormat classNames
        let outP := getOutputPath o.output env.cwd filePath
        match env.writeFile outP td with
        | Except.error e => [Ev.errLog (("Error processing ") ++ filePath ++ (":")) e]
        | Except.ok _ =>
          [Ev.write outP td, Ev.info (("Generated types for ") ++ filePath ++ (" -> ") ++ outP)]

def concatMap {α β : Type} (g : α → List β) : List α → List β
  | [] => []
  | x :: xs => g x ++ concatMap g xs

/-- Embeds generate from src/index.ts: glob discovery is awaited outside any
try/catch, so its failure propagates; each discovered file is then processed
through the totalised per-file pipeline. -/
def generate (o : Opts) (env : Env) : Except String (List Ev) :=
  let d1 := if o.debug then [Ev.info (("Using glob pattern: \x22") ++ o.pattern ++ ("\x22"))] else []
  match env.glob o.pattern with
  | Except.error e => Except.error e
  | Except.ok files =>
    let d2 :=
      if o.debug then
        Ev.info (("Found ") ++ toString files.length ++ (" matching files:")) ::
          files.map (fun f => Ev.info (("- ") ++ f))
      else []
    Except.ok (d1 ++ d2 ++ concatMap (processFile o env) files)

def generateCssModuleTypes (r : RawOpts) (env : Env) : Except String (List Ev) :=
  generate (resolveOptions r) env

def withPat (filePath : String) (r : RawFileOpts) : RawOpts :=
  { toRawFileOpts := r, pattern := filePath }

/-- Embeds processSingleFile from src/index.ts: the file path becomes the glob
pattern of a fresh generator, which then runs a full generate pass. -/
def processSingleFile (filePath : String) (r : RawFileOpts) (env : Env) :
    Except String (List Ev) :=
  match generateCssModuleTypes (withPat filePath r) env with
  | Except.ok evs => Except.ok (Ev.info (("Processing single file: ") ++ filePath) :: evs)
  | Except.error e => Except.error e

def eventsWrites (evs : List Ev) : List (String × String) :=
  evs.filterMap (fun e => match e with | Ev.write p c => some (p, c) | _ => none)

def writesOfRun (r : Except String (List Ev)) : List (String × String) :=
  match r with
  | Except.ok evs => eventsWrites evs
  | Except.error _ => []

def setDebug (o : Opts) (b : Bool) : Opts := { o with debug := b }

/-! ### Watch coordinator (CLI module): directory inference and unlink -/

/-- The parent-directory chain the while loop of getDirectoriesToWatch walks:
while the current directory is neither the dot directory nor the root, step to
its dirname and record it.  Each non-terminal dirname step strictly shortens
the path, so a fuel of the path length plus one always suffices. -/
def parentChain : String → Nat → List String
  | _, 0 => []
  | p, fuel + 1 =>
    if p = (".") ∨ p = ("/") then []
    else dirname p :: parentChain (dirname p) fuel

def ancestorsOf (d : String) : List String := parentChain d (d.length + 1)

def filterOk (filter d : String) : Bool := filter == ("") || hasSub filter d

def pushNew (acc : List String) (x : String) : List String :=
  if x ∈ acc then acc else acc ++ [x]

def addAncs (filter : String) (acc : List String) (chain : List String) : List String :=
  chain.foldl (fun a q => if filterOk filter q then pushNew a q else a) acc

def dirStep (filter : String) (acc : List String) (file : String) : List String :=
  addAncs filter (pushNew acc (dirname file)) (ancestorsOf (dirname file))

/-- Embeds getDirectoriesToWatch from the CLI module: for every discovered file
add its directory, then walk the parent chain, adding each parent that passes
the include filter.  The JS Set is modelled as an insertion-ordered list
without duplicates. -/
def getDirectoriesToWatch (files : List String) (includeFilter : String) : List String :=
  files.foldl (dirStep includeFilter) []

/-- The directory set exactly as the claim words it: the directory of every
file plus its ancestors up to but excluding the dot directory and the root,
each ancestor subject to the include filter. -/
def claimDirsC6 (files : List String) (includeFilter : String) : List String :=
  files.foldl
    (fun acc file =>
      addAncs includeFilter (pushNew acc (dirname file))
        ((ancestorsOf (dirname file)).filter (fun q => !(q == (".") || q == ("/")))))
    []

inductive WatchAct where
  | delete (p : String)
  | note (msg : String)
  | pipeline (p : String)
deriving DecidableEq

def isModuleCss (p : String) : Bool :=
  let l : List Char := p.data.map lcChar
  endsWithL (String.data (".module.css")) l ||
  endsWithL (String.data (".module.scss")) l ||
  endsWithL (String.data (".module.sass")) l

/-- Embeds the unlink handler of the CLI watch mode.  It receives the raw CLI
output option, which is absent when the flag was not given; in that case the
ternary falls through to path.join with an undefined first argument, which
throws - modelled as an error result. -/
def unlinkHandler (outputOpt : Option String) (cwd : String)
    (artifactExists : String → Bool) (debug : Bool) (filePath : String) :
    Except String (List WatchAct) :=
  if isModuleCss filePath = false then
    Except.ok (if debug then [WatchAct.note (("Ignoring non-module CSS/SCSS file deletion: ") ++ filePath)] else [])
  else
    let abs := if isAbsolutePath filePath then filePath else pathResolve cwd filePath
    match outputOpt with
    | none => Except.error (("TypeError: the path argument must be of type string, received undefined"))
    | some out =>
      let typesFilePath :=
        if out = ("auto") then abs ++ (".d.ts")
        else pathJoin out (pathRelative cwd abs ++ (".d.ts"))
      Except.ok
        (if artifactExists typesFilePath then
          [WatchAct.delete typesFilePath,
           WatchAct.note (("File ") ++ abs ++ (" removed, deleted types file: ") ++ typesFilePath)]
        else [])

/-- Whether a segment survives normalisation untouched: not empty, not a dot,
not a dot-dot. -/
def plainSeg (g : List Char) : Bool := !(g == [] || g == ['.'] || g == ['.', '.'])

def plainSegsB (gs : List (List Char)) : Bool := gs.all plainSeg

/-! ### Event projections and auxiliary values used by the statements -/

def eventsErrs (evs : List Ev) : List (String × String) :=
  evs.filterMap (fun e => match e with | Ev.errLog m err => some (m, err) | _ => none)

def errsOfRun (r : Except String (List Ev)) : List (String × String) :=
  match r with
  | Except.ok evs => eventsErrs evs
  | Except.error _ => []

def isOkB (r : Except String (List Ev)) : Bool :=
  match r with
  | Except.ok _ => true
  | Except.error _ => false

/-- The debug events generate emits around glob discovery when the debug flag
is on. -/
def globDebugEvs (o : Opts) (files : List String) : List Ev :=
  (if o.debug then [Ev.info (("Using glob pattern: \x22") ++ o.pattern ++ ("\x22"))] else []) ++
  (if o.debug then
    Ev.info (("Found ") ++ toString files.length ++ (" matching files:")) ::
      files.map (fun f => Ev.info (("- ") ++ f))
  else [])

/-- The write set of one per-file pass, independent of the debug flag. -/
def fileWrites (et : ExportType) (nf : NameFormat) (output : String) (env : Env)
    (filePath : String) : List (String × String) :=
  match (if isScssOrSass filePath then env.compileScss filePath else env.readFile filePath) with
  | Except.error _ => []
  | Except.ok css =>
    match env.extract css filePath with
    | Except.error _ => []
    | Except.ok classNames =>
      let td := generateTypeDefinition et nf classNames
      let outP := getOutputPath output env.cwd filePath
      match env.writeFile outP td with
      | Except.error _ => []
      | Except.ok _ => [(outP, td)]

/-! ### Concrete environments and option records used by the witnesses -/

def envA : Env :=
  { glob := fun p =>
      if p = ("glob-fail") then Except.error (("discovery failed"))
      else Except.ok ([("a.module.css"), ("b.module.css"), ("c.module.css")])
    compileScss := fun _ => Except.error (("sass unavailable"))
    readFile := fun p =>
      if p = ("b.module.css") then Except.error (("unreadable")) else Except.ok ((".title red"))
    extract := fun _ _ => Except.ok ([("title")])
    writeFile := fun _ _ => Except.ok ()
    cwd := ("/proj") }

def envB : Env := { envA with glob := fun _ => Except.ok [] }

def envC : Env :=
  { envA with
    glob := fun p => Except.ok [p]
    readFile := fun _ => Except.ok ((".title red"))
    extract := fun _ _ => Except.ok [] }

def optsGlobFail : Opts :=
  { pattern := ("glob-fail"), output := ("auto"), watchEnabled := false
    exportType := ExportType.default, nameFormat := NameFormat.camelCase, debug := false }

def optsBatch : Opts := { optsGlobFail with pattern := ("src") }

def optsNamedEmpty : Opts :=
  { optsGlobFail with pattern := ("a.module.css"), exportType := ExportType.named }

def rawNone : RawFileOpts :=
  { output := none, watchEnabled := none, exportType := none, nameFormat := none, debug := none }

def files3 : List String := [("a.module.css"), ("b.module.css"), ("c.module.css")]

/-! ### Generic lemmas about the string helpers -/

theorem strExt {a b : String} (h : a.data = b.data) : a = b := by
  cases a; cases b; exact congrArg String.mk h

theorem strDataAppend (a b : String) : (a ++ b).data = a.data ++ b.data := rfl

theorem leadsWith_append_self (as bs : List Char) : leadsWith as (as ++ bs) = true := by
  induction as with
  | nil => rfl
  | cons a tl ih => simp [leadsWith, ih]

theorem leadsWith_self (as : List Char) : leadsWith as as = true := by
  have h := leadsWith_append_self as []
  simpa using h

theorem leadsWith_extend (n : List Char) :
    ∀ h t, leadsWith n h = true → leadsWith n (h ++ t) = true := by
  induction n with
  | nil => intro h t _; rfl
  | cons a tl ih =>
    intro h t hl
    cases h with
    | nil => simp [leadsWith] at hl
    | cons b bs =>
      simp only [leadsWith, Bool.and_eq_true] at hl
      simp only [List.cons_append, leadsWith, Bool.and_eq_true]
      exact ⟨hl.1, ih bs t hl.2⟩

theorem hasSubL_nil_needle : ∀ h, hasSubL [] h = true := by
  intro h
  cases h with
  | nil => rfl
  | cons c t => simp [hasSubL, leadsWith]

theorem hasSubL_of_leadsWith {n h : List Char} (hl : leadsWith n h = true) :
    hasSubL n h = true := by
  cases h with
  | nil =>
    cases n with
    | nil => rfl
    | cons a tl => simp [leadsWith] at hl
  | cons c t => simp [hasSubL, hl]

theorem hasSubL_append_left (pre : List Char) {n h : List Char}
    (hs : hasSubL n h = true) : hasSubL n (pre ++ h) = true := by
  induction pre with
  | nil => simpa using hs
  | cons p ps ih => simp [hasSubL, ih]

theorem hasSubL_append_right {n h : List Char} (post : List Char)
    (hs : hasSubL n h = true) : hasSubL n (h ++ post) = true := by
  induction h with
  | nil =>
    have hn : n = [] := by
      cases n with
      | nil => rfl
      | cons a tl => simp [hasSubL] at hs
    subst hn
    simpa using hasSubL_nil_needle post
  | cons c t ih =>
    simp only [hasSubL, Bool.or_eq_true] at hs
    rcases hs with hl | hr
    · have := leadsWith_extend n (c :: t) post hl
      simp only [List.cons_append] at this ⊢
      simp [hasSubL, this]
    · simp only [List.cons_append, hasSubL, Bool.or_eq_true]
      exact Or.inr (ih hr)

theorem hasSub_front (a b : String) : hasSub a (a ++ b) = true := by
  unfold hasSub
  rw [strDataAppend]
  exact hasSubL_of_leadsWith (leadsWith_append_self _ _)

theorem hasSub_refl (a : String) : hasSub a a = true :=
  hasSubL_of_leadsWith (leadsWith_self _)

theorem hasSub_extend_left (p : String) {n h : String} (hs : hasSub n h = true) :
    hasSub n (p ++ h) = true := by
  unfold hasSub at *
  rw [strDataAppend]
  exact hasSubL_append_left _ hs

theorem hasSub_extend_right (t : String) {n h : String} (hs : hasSub n h = true) :
    hasSub n (h ++ t) = true := by
  unfold hasSub at *
  rw [strDataAppend]
  exact hasSubL_append_right _ hs

theorem hasSub_mem_joinNL {s : String} :
    ∀ parts : List String, s ∈ parts → hasSub s (joinNL parts) = true := by
  intro parts
  induction parts with
  | nil => intro h; simp at h
  | cons p ps ih =>
    intro hmem
    rcases List.mem_cons.mp hmem with rfl | hmem
    · cases ps with
      | nil => exact hasSub_refl s
      | cons q qs =>
        show hasSub s ((s ++ ("\n")) ++ joinNL (q :: qs)) = true
        exact hasSub_extend_right _ (hasSub_front s (("\n")))
    · cases ps with
      | nil => simp at hmem
      | cons q qs =>
        show hasSub s ((p ++ ("\n")) ++ joinNL (q :: qs)) = true
        exact hasSub_extend_left _ (ih hmem)

/-! ### C1: the camelCase name convention -/

/-- C1 counterexample: a logical class name consisting solely of delimiter
characters splits into no segments; the code returns it unchanged, while the
claimed rule (concatenate the transformed segments and quote when the result is
not a bare identifier) would produce a quoted empty string. -/
theorem formatClassName_claim_fails :
    formatClassName NameFormat.camelCase (("___")) = (("___"))
  ∧ camelPerClaim (("___")) = quoteTok ((""))
  ∧ formatClassName NameFormat.camelCase (("___")) ≠ camelPerClaim (("___")) := by
  refine ⟨rfl, rfl, ?_⟩
  decide

/-- C1 (amended): under camelCase the name is split on runs of dashes or
underscores with empty segments discarded; when no segments remain the name is
returned unchanged, and otherwise the first segment is fully lower-cased when
shouty (else only its first character), every later segment gets its first
character upper-cased (with the remainder lower-cased when shouty), the
segments are concatenated, and the result is quoted when it is not a valid
bare identifier.  The five edge cases of the specification hold. -/
theorem formatClassName_camelCase_spec :
    (∀ name : String,
      formatClassName NameFormat.camelCase name =
        if (splitParts name).isEmpty then name else camelPerClaim name)
  ∧ formatClassName NameFormat.camelCase (("button-primary")) = (("buttonPrimary"))
  ∧ formatClassName NameFormat.camelCase (("BUTTON_PRIMARY")) = (("buttonPrimary"))
  ∧ formatClassName NameFormat.camelCase (("nav_ITEM")) = (("navItem"))
  ∧ formatClassName NameFormat.camelCase (("123-invalid")) = quoteTok (("123Invalid"))
  ∧ formatClassName NameFormat.camelCase (("button--state-success")) = (("buttonStateSuccess")) := by
  refine ⟨fun name => rfl, ?_, ?_, ?_, ?_, ?_⟩ <;> decide

/-! ### C2: containment between the both, default and named shapes -/

/-- C2 counterexample: with one class foo, the named shape emits the standalone
declaration with the declare keyword, but the both shape emits its standalone
declarations without it, so the named declaration does not occur in the both
output. -/
theorem both_missing_named_declaration :
    generateTypeDefinition ExportType.named NameFormat.camelCase [(("foo"))]
      = (("export declare const foo: string;"))
  ∧ hasSub (("export declare const foo: string;"))
      (generateTypeDefinition ExportType.both NameFormat.camelCase [(("foo"))]) = false := by
  refine ⟨rfl, ?_⟩
  decide

/-- C2 (amended): for every class-name list and name convention, the both
output textually contains the entire default output, and contains one
standalone exported string declaration of the form export const NAME: string;
per formatted name - the form the both branch itself emits, which differs from
the export declare const form of the named shape. -/
theorem both_contains_default_and_const_decls :
    ∀ (nf : NameFormat) (classNames : List String),
      hasSub (generateTypeDefinition ExportType.default nf classNames)
        (generateTypeDefinition ExportType.both nf classNames) = true
    ∧ (∀ fn, fn ∈ formattedNames nf classNames →
        hasSub (("export const ") ++ fn ++ (": string;"))
          (generateTypeDefinition ExportType.both nf classNames) = true) := by
  intro nf classNames
  constructor
  · show hasSub (defaultBlock (classNamesTypeOf nf classNames))
      (((defaultBlock (classNamesTypeOf nf classNames) ++ ("\n")) ++
        constDecls nf classNames) ++ ("\n")) = true
    exact hasSub_extend_right _ (hasSub_extend_right _
      (hasSub_front (defaultBlock (classNamesTypeOf nf classNames)) (("\n"))))
  · intro fn hmem
    have hline : (("export const ") ++ fn ++ (": string;")) ∈
        (formattedNames nf classNames).map (fun n => ("export const ") ++ n ++ (": string;")) :=
      List.mem_map_of_mem _ hmem
    have hsub : hasSub (("export const ") ++ fn ++ (": string;")) (constDecls nf classNames) = true :=
      hasSub_mem_joinNL _ hline
    show hasSub (("export const ") ++ fn ++ (": string;"))
      (((defaultBlock (classNamesTypeOf nf classNames) ++ ("\n")) ++
        constDecls nf classNames) ++ ("\n")) = true
    exact hasSub_extend_right _ (hasSub_extend_left _ hsub)

/-- Witness for the amended C2 statement at the singleton class foo. -/
theorem both_contains_witness :
    hasSub (generateTypeDefinition ExportType.default NameFormat.camelCase [(("foo"))])
      (generateTypeDefinition ExportType.both NameFormat.camelCase [(("foo"))]) = true
  ∧ hasSub (("export const ") ++ (("foo")) ++ (": string;"))
      (generateTypeDefinition ExportType.both NameFormat.camelCase [(("foo"))]) = true :=
  ⟨(both_contains_default_and_const_decls NameFormat.camelCase [(("foo"))]).1,
   (both_contains_default_and_const_decls NameFormat.camelCase [(("foo"))]).2 (("foo"))
     (by decide)⟩

/-! ### C5 and C10: the empty class-name set -/

/-- C5: with zero collected class names, the default and both shapes place the
string index-signature fallback member where the per-name member list would
be, and the emitted declaration body is a fixed nonempty text. -/
theorem emptyset_default_both_fallback :
    ∀ nf : NameFormat,
      generateTypeDefinition ExportType.default nf []
        = defaultBlock (("  readonly [key: string]: string;"))
    ∧ generateTypeDefinition ExportType.both nf []
        = defaultBlock (("  readonly [key: string]: string;")) ++ ("\n") ++ ("") ++ ("\n")
    ∧ hasSub (("  readonly [key: string]: string;"))
        (generateTypeDefinition ExportType.default nf []) = true
    ∧ hasSub (("  readonly [key: string]: string;"))
        (generateTypeDefinition ExportType.both nf []) = true
    ∧ generateTypeDefinition ExportType.default nf [] ≠ ("")
    ∧ generateTypeDefinition ExportType.both nf [] ≠ ("") := by
  intro nf
  cases nf <;> exact ⟨rfl, rfl, by decide, by decide, by decide, by decide⟩

/-- C10: with zero collected class names the named shape emits exactly the
empty string - no fallback member, no declarations - and a per-file pass in
named mode therefore writes an artifact with empty content. -/
theorem emptyset_named_empty :
    (∀ nf : NameFormat, generateTypeDefinition ExportType.named nf [] = (""))
  ∧ eventsWrites (processFile optsNamedEmpty envC (("a.module.css")))
      = [((("a.module.css.d.ts")), (("")))] := by
  refine ⟨fun nf => ?_, ?_⟩
  · cases nf <;> rfl
  · decide

/-! ### Lemmas about the event projections -/

theorem eventsWrites_append (a b : List Ev) :
    eventsWrites (a ++ b) = eventsWrites a ++ eventsWrites b := by
  simp [eventsWrites]

theorem mem_eventsWrites_concatMap {w : String × String} {g : String → List Ev}
    {files : List String} {f : String} (hf : f ∈ files)
    (hw : w ∈ eventsWrites (g f)) : w ∈ eventsWrites (concatMap g files) := by
  induction files with
  | nil => simp at hf
  | cons x xs ih =>
    show w ∈ eventsWrites (g x ++ concatMap g xs)
    rw [eventsWrites_append]
    rcases List.mem_cons.mp hf with rfl | hf2
    · exact List.mem_append_left _ hw
    · exact List.mem_append_right _ (ih hf2)

theorem eventsWrites_concatMap (g : String → List Ev) :
    ∀ files : List String,
      eventsWrites (concatMap g files) = concatMap (fun f => eventsWrites (g f)) files := by
  intro files
  induction files with
  | nil => rfl
  | cons x xs ih =>
    show eventsWrites (g x ++ concatMap g xs) = _
    rw [eventsWrites_append, ih]
    rfl

theorem concatMap_congr {α β : Type} {f g : α → List β} :
    ∀ {l : List α}, (∀ x ∈ l, f x = g x) → concatMap f l = concatMap g l := by
  intro l
  induction l with
  | nil => intro _; rfl
  | cons x xs ih =>
    intro h
    show f x ++ concatMap f xs = g x ++ concatMap g xs
    rw [h x (List.mem_cons_self _ _), ih (fun y hy => h y (List.mem_cons_of_mem _ hy))]

theorem eventsWrites_globDebugEvs (o : Opts) (files : List String) :
    eventsWrites (globDebugEvs o files) = [] := by
  cases hd : o.debug <;>
    simp [globDebugEvs, hd, eventsWrites, List.filterMap_append, List.filterMap_cons,
      List.filterMap_map, Function.comp]

theorem eventsErrs_globDebugEvs (o : Opts) (files : List String) :
    eventsErrs (globDebugEvs o files) = [] := by
  cases hd : o.debug <;>
    simp [globDebugEvs, hd, eventsErrs, List.filterMap_append, List.filterMap_cons,
      List.filterMap_map, Function.comp]

/-! ### C3: per-file failures are isolated, discovery failures propagate -/

/-- C3: a glob discovery failure is not caught and propagates out of generate,
aborting the run; when discovery succeeds, generate always completes with the
event trace of every discovered file, the writes of each successfully
processed file survive into the run regardless of the other files, and every
file either yields exactly one error report naming the offending path or
exactly one write to its computed artifact path. -/
theorem generate_isolates_failures (o : Opts) (env : Env) :
    (∀ e, env.glob o.pattern = Except.error e → generate o env = Except.error e)
  ∧ (∀ files, env.glob o.pattern = Except.ok files →
        generate o env
          = Except.ok (globDebugEvs o files ++ concatMap (processFile o env) files)
      ∧ (∀ f w, f ∈ files → w ∈ eventsWrites (processFile o env f) →
          w ∈ writesOfRun (generate o env))
      ∧ (∀ f, f ∈ files →
          (eventsErrs (processFile o env f)).map Prod.fst
              = [(("Error processing ") ++ f ++ (":"))]
        ∨ (eventsWrites (processFile o env f)).map Prod.fst
              = [getOutputPath o.output env.cwd f])) := by
  constructor
  · intro e h
    simp only [generate, h]
  · intro files h
    have h2a : generate o env
        = Except.ok (globDebugEvs o files ++ concatMap (processFile o env) files) := by
      simp only [generate, h, globDebugEvs, List.append_assoc]
    refine ⟨h2a, ?_, ?_⟩
    · intro f w hf hw
      rw [h2a]
      show w ∈ eventsWrites (globDebugEvs o files ++ concatMap (processFile o env) files)
      rw [eventsWrites_append]
      exact List.mem_append_right _ (mem_eventsWrites_concatMap hf hw)
    · intro f hf
      rcases hload : (if isScssOrSass f then env.compileScss f else env.readFile f) with e | css
      · left
        cases hd : o.debug <;> simp [processFile, hload, hd, eventsErrs] <;> split <;> simp
      · rcases hex : env.extract css f with e | classNames
        · left
          cases hd : o.debug <;> simp [processFile, hload, hex, hd, eventsErrs] <;> split <;> simp
        · rcases hwr : env.writeFile (getOutputPath o.output env.cwd f)
              (generateTypeDefinition o.exportType o.nameFormat classNames) with e | u
          · left
            cases hd : o.debug <;> simp [processFile, hload, hex, hwr, hd, eventsErrs] <;> split <;> simp
          · right
            cases hd : o.debug <;> simp [processFile, hload, hex, hwr, hd, eventsWrites] <;> split <;> simp

/-- Witness for C3: a failing glob aborts the run with its error; with a
three-file batch whose middle file is unreadable, the run completes and the
middle file is settled by an error report or a write. -/
theorem generate_isolates_failures_witness :
    generate optsGlobFail envA = Except.error (("discovery failed"))
  ∧ generate optsBatch envA
      = Except.ok (globDebugEvs optsBatch files3 ++ concatMap (processFile optsBatch envA) files3)
  ∧ ((eventsErrs (processFile optsBatch envA (("b.module.css")))).map Prod.fst
        = [(("Error processing ") ++ (("b.module.css")) ++ (":"))]
    ∨ (eventsWrites (processFile optsBatch envA (("b.module.css")))).map Prod.fst
        = [getOutputPath optsBatch.output envA.cwd (("b.module.css"))]) :=
  ⟨(generate_isolates_failures optsGlobFail envA).1 (("discovery failed")) rfl,
   ((generate_isolates_failures optsBatch envA).2 files3 rfl).1,
   ((generate_isolates_failures optsBatch envA).2 files3 rfl).2.2 (("b.module.css"))
     (by decide)⟩

/-! ### C8: the debug flag never influences artifact content or path -/

theorem eventsWrites_processFile (o : Opts) (env : Env) (f : String) :
    eventsWrites (processFile o env f)
      = fileWrites o.exportType o.nameFormat o.output env f := by
  rcases hload : (if isScssOrSass f then env.compileScss f else env.readFile f) with e | css
  · cases hd : o.debug <;> simp [processFile, fileWrites, hload, hd, eventsWrites] <;> split <;> simp
  · rcases hex : env.extract css f with e | classNames
    · cases hd : o.debug <;> simp [processFile, fileWrites, hload, hex, hd, eventsWrites] <;> split <;> simp
    · rcases hwr : env.writeFile (getOutputPath o.output env.cwd f)
          (generateTypeDefinition o.exportType o.nameFormat classNames) with e | u
      · cases hd : o.debug <;> simp [processFile, fileWrites, hload, hex, hwr, hd, eventsWrites] <;> split <;> simp
      · cases hd : o.debug <;> simp [processFile, fileWrites, hload, hex, hwr, hd, eventsWrites] <;> split <;> simp

/-- C8: two runs differing only in the debug flag write byte-identical content
to identical paths, both for a single file pass and for a whole generate run;
debug only changes the informational console trace. -/
theorem debug_does_not_affect_writes :
    ∀ (o : Opts) (env : Env) (filePath : String) (b₁ b₂ : Bool),
      eventsWrites (processFile (setDebug o b₁) env filePath)
        = eventsWrites (processFile (setDebug o b₂) env filePath)
    ∧ writesOfRun (generate (setDebug o b₁) env)
        = writesOfRun (generate (setDebug o b₂) env) := by
  intro o env fp b₁ b₂
  have hpf : ∀ (b : Bool) (fp2 : String),
      eventsWrites (processFile (setDebug o b) env fp2)
        = fileWrites o.exportType o.nameFormat o.output env fp2 := by
    intro b fp2
    exact eventsWrites_processFile (setDebug o b) env fp2
  refine ⟨by rw [hpf, hpf], ?_⟩
  rcases hg : env.glob o.pattern with e | files
  · rw [(generate_isolates_failures (setDebug o b₁) env).1 e hg,
      (generate_isolates_failures (setDebug o b₂) env).1 e hg]
  · rw [((generate_isolates_failures (setDebug o b₁) env).2 files hg).1,
      ((generate_isolates_failures (setDebug o b₂) env).2 files hg).1]
    show eventsWrites _ = eventsWrites _
    rw [eventsWrites_append, eventsWrites_append,
      eventsWrites_globDebugEvs, eventsWrites_globDebugEvs,
      eventsWrites_concatMap, eventsWrites_concatMap]
    refine congrArg _ (concatMap_congr ?_)
    intro x _
    rw [hpf, hpf]

/-! ### C9: processSingleFile delegates to a batch run over the path -/

/-- C9: processSingleFile builds a generator whose pattern is the given path
and runs a full generate pass, so the path reaches the glob collaborator as a
pattern; when the glob engine does not match the path verbatim and returns no
files, the run succeeds with zero processed files, zero writes and zero error
reports. -/
theorem processSingleFile_delegates :
    ∀ (filePath : String) (r : RawFileOpts) (env : Env),
      processSingleFile filePath r env =
        Except.map (fun evs => Ev.info (("Processing single file: ") ++ filePath) :: evs)
          (generateCssModuleTypes (withPat filePath r) env)
    ∧ (resolveOptions (withPat filePath r)).pattern = filePath
    ∧ (env.glob filePath = Except.ok [] →
        isOkB (processSingleFile filePath r env) = true
      ∧ writesOfRun (processSingleFile filePath r env) = []
      ∧ errsOfRun (processSingleFile filePath r env) = []) := by
  intro fp r env
  refine ⟨?_, rfl, ?_⟩
  · unfold processSingleFile
    cases generateCssModuleTypes (withPat fp r) env <;> rfl
  · intro hg
    have hgen : generateCssModuleTypes (withPat fp r) env
        = Except.ok (globDebugEvs (resolveOptions (withPat fp r)) [] ++
            concatMap (processFile (resolveOptions (withPat fp r)) env) []) :=
      ((generate_isolates_failures (resolveOptions (withPat fp r)) env).2 [] hg).1
    unfold processSingleFile
    rw [hgen]
    refine ⟨rfl, ?_, ?_⟩
    · show eventsWrites (Ev.info ((("Processing single file: ") ++ fp)) ::
        (globDebugEvs (resolveOptions (withPat fp r)) [] ++ [])) = []
      rw [List.append_nil]
      show eventsWrites (globDebugEvs (resolveOptions (withPat fp r)) []) = []
      exact eventsWrites_globDebugEvs _ _
    · show eventsErrs (Ev.info ((("Processing single file: ") ++ fp)) ::
        (globDebugEvs (resolveOptions (withPat fp r)) [] ++ [])) = []
      rw [List.append_nil]
      show eventsErrs (globDebugEvs (resolveOptions (withPat fp r)) []) = []
      exact eventsErrs_globDebugEvs _ _

/-- Witness for C9: a path containing glob metacharacters that the discovery
collaborator does not match yields a successful run with no writes and no
error reports. -/
theorem processSingleFile_delegates_witness :
    isOkB (processSingleFile (("styles/[abc].module.css")) rawNone envB) = true
  ∧ writesOfRun (processSingleFile (("styles/[abc].module.css")) rawNone envB) = []
  ∧ errsOfRun (processSingleFile (("styles/[abc].module.css")) rawNone envB) = [] :=
  (processSingleFile_delegates (("styles/[abc].module.css")) rawNone envB).2.2 rfl

/-! ### C6: the initially watched directory set -/

theorem mem_pushNew (acc : List String) (x d : String) :
    d ∈ pushNew acc x ↔ d ∈ acc ∨ d = x := by
  by_cases h : x ∈ acc
  · simp only [pushNew, if_pos h]
    constructor
    · exact Or.inl
    · rintro (h1 | rfl)
      · exact h1
      · exact h
  · simp [pushNew, if_neg h]

theorem mem_addAncs (filter : String) (chain : List String) :
    ∀ acc d, d ∈ addAncs filter acc chain ↔
      d ∈ acc ∨ (d ∈ chain ∧ filterOk filter d = true) := by
  induction chain with
  | nil => intro acc d; simp [addAncs]
  | cons c cs ih =>
    intro acc d
    show d ∈ addAncs filter (if filterOk filter c then pushNew acc c else acc) cs ↔ _
    rw [ih]
    by_cases hc : filterOk filter c = true
    · rw [if_pos hc, mem_pushNew]
      constructor
      · rintro ((h | rfl) | ⟨h1, h2⟩)
        · exact Or.inl h
        · exact Or.inr ⟨List.mem_cons_self _ _, hc⟩
        · exact Or.inr ⟨List.mem_cons_of_mem _ h1, h2⟩
      · rintro (h | ⟨h1, h2⟩)
        · exact Or.inl (Or.inl h)
        · rcases List.mem_cons.mp h1 with rfl | h1
          · exact Or.inl (Or.inr rfl)
          · exact Or.inr ⟨h1, h2⟩
    · rw [if_neg hc]
      constructor
      · rintro (h | ⟨h1, h2⟩)
        · exact Or.inl h
        · exact Or.inr ⟨List.mem_cons_of_mem _ h1, h2⟩
      · rintro (h | ⟨h1, h2⟩)
        · exact Or.inl h
        · rcases List.mem_cons.mp h1 with rfl | h1
          · exact absurd h2 hc
          · exact Or.inr ⟨h1, h2⟩

theorem mem_dirFold (filter : String) :
    ∀ (files : List String) (acc : List String) (d : String),
      d ∈ files.foldl (dirStep filter) acc ↔
        d ∈ acc ∨ ∃ f, f ∈ files ∧ (d = dirname f ∨
          (d ∈ ancestorsOf (dirname f) ∧ filterOk filter d = true)) := by
  intro files
  induction files with
  | nil => intro acc d; simp
  | cons f fs ih =>
    intro acc d
    show d ∈ fs.foldl (dirStep filter) (dirStep filter acc f) ↔ _
    rw [ih]
    have hstep : d ∈ dirStep filter acc f ↔
        d ∈ acc ∨ (d = dirname f ∨
          (d ∈ ancestorsOf (dirname f) ∧ filterOk filter d = true)) := by
      unfold dirStep
      rw [mem_addAncs, mem_pushNew]
      tauto
    rw [hstep]
    constructor
    · rintro ((h | hf) | ⟨g, hg, hgd⟩)
      · exact Or.inl h
      · exact Or.inr ⟨f, List.mem_cons_self _ _, hf⟩
      · exact Or.inr ⟨g, List.mem_cons_of_mem _ hg, hgd⟩
    · rintro (h | ⟨g, hg, hgd⟩)
      · exact Or.inl (Or.inl h)
      · rcases List.mem_cons.mp hg with rfl | hg
        · exact Or.inl (Or.inr hgd)
        · exact Or.inr ⟨g, hg, hgd⟩

/-- C6 counterexample: with an empty include filter, the file a/b/x.module.css
makes the watcher include the dot directory - the terminal element of the
dirname chain - while the claimed set, whose ancestors exclude the dot
directory and the root, does not contain it. -/
theorem getDirectoriesToWatch_claim_fails :
    getDirectoriesToWatch [(("a/b/x.module.css"))] (("")) = [(("a/b")), (("a")), ((".")) ]
  ∧ claimDirsC6 [(("a/b/x.module.css"))] (("")) = [(("a/b")), (("a"))]
  ∧ ((".")) ∈ getDirectoriesToWatch [(("a/b/x.module.css"))] ((""))
  ∧ ((".")) ∉ claimDirsC6 [(("a/b/x.module.css"))] (("")) := by
  refine ⟨rfl, rfl, ?_, ?_⟩ <;> decide

/-- C6 (amended): the initial watched set consists of the directory of every
discovered file plus the parent chain of that directory obtained by repeated
dirname steps; the chain stops only after producing the dot directory or the
root, which are themselves included, and every chain element is kept only when
the project-scope filter is empty or occurs as a substring of it. -/
theorem getDirectoriesToWatch_spec :
    ∀ (files : List String) (includeFilter d : String),
      d ∈ getDirectoriesToWatch files includeFilter ↔
        ∃ f, f ∈ files ∧ (d = dirname f ∨
          (d ∈ ancestorsOf (dirname f) ∧
            (includeFilter = ("") ∨ hasSub includeFilter d = true))) := by
  intro files filter d
  unfold getDirectoriesToWatch
  rw [mem_dirFold]
  simp [filterOk]

/-! ### C7: the unlink handler of watch mode -/

/-- C7: when the CLI was started without an output flag the handler reaches
path.join with an undefined first argument and raises a TypeError even though
the artifact may simply be absent; with an explicit output value it computes
the artifact path by the output-mode rule, deletes it only when present,
raises nothing when it is absent, and performs no pipeline action. -/
theorem unlinkHandler_eval :
    unlinkHandler none (("/proj")) (fun _ => false) false (("src/Button.module.css"))
      = Except.error (("TypeError: the path argument must be of type string, received undefined"))
  ∧ unlinkHandler (some (("auto"))) (("/proj")) (fun _ => false) false (("src/Button.module.css"))
      = Except.ok []
  ∧ unlinkHandler (some (("auto"))) (("/proj"))
        (fun p => p == (("/proj/src/Button.module.css.d.ts"))) false (("src/Button.module.css"))
      = Except.ok [WatchAct.delete (("/proj/src/Button.module.css.d.ts")),
          WatchAct.note (("File /proj/src/Button.module.css removed, deleted types file: /proj/src/Button.module.css.d.ts"))]
  ∧ unlinkHandler (some (("types"))) (("/proj")) (fun _ => true) false (("/proj/src/Button.module.css"))
      = Except.ok [WatchAct.delete (("types/src/Button.module.css.d.ts")),
          WatchAct.note (("File /proj/src/Button.module.css removed, deleted types file: types/src/Button.module.css.d.ts"))]
  ∧ unlinkHandler none (("/proj")) (fun _ => false) false (("src/Button.css"))
      = Except.ok [] := by
  exact ⟨rfl, rfl, rfl, rfl, rfl⟩

/-! ### C4: the output-path rule -/

theorem splitGroups_ne_nil (p : Char → Bool) (cs : List Char) : splitGroups p cs ≠ [] := by
  cases cs with
  | nil => exact fun h => List.noConfusion h
  | cons c cs =>
    show (let r := splitGroups p cs
          if p c then [] :: r
          else match r with | [] => [[c]] | g :: gs => (c :: g) :: gs) ≠ []
    by_cases h : p c
    · simp [h]
    · simp only [if_neg h]
      cases splitGroups p cs <;> simp

theorem joinWith_splitSlashL : ∀ cs : List Char, joinWith '/' (splitSlashL cs) = cs := by
  intro cs
  induction cs with
  | nil => rfl
  | cons c cs ih =>
    by_cases h : isSlashCh c
    · have hc : c = '/' := by simpa [isSlashCh] using h
      subst hc
      have hsplit : splitSlashL ('/' :: cs) = [] :: splitSlashL cs := by
        simp [splitSlashL, splitGroups, isSlashCh]
      rw [hsplit]
      cases hr : splitSlashL cs with
      | nil => exact absurd hr (splitGroups_ne_nil _ _)
      | cons g gs =>
        show [] ++ '/' :: joinWith '/' (g :: gs) = '/' :: cs
        rw [List.nil_append]
        have h2 := ih
        rw [hr] at h2
        rw [h2]
    · cases hr : splitSlashL cs with
      | nil => exact absurd hr (splitGroups_ne_nil _ _)
      | cons g gs =>
        have hr2 : splitGroups isSlashCh cs = g :: gs := hr
        have hsplit : splitSlashL (c :: cs) = (c :: g) :: gs := by
          simp [splitSlashL, splitGroups, h, hr2]
        rw [hsplit]
        have h2 := ih
        rw [hr] at h2
        cases gs with
        | nil =>
          show c :: g = c :: cs
          exact congrArg (c :: ·) h2
        | cons g2 gs2 =>
          show (c :: g) ++ '/' :: joinWith '/' (g2 :: gs2) = c :: cs
          show c :: (g ++ '/' :: joinWith '/' (g2 :: gs2)) = c :: cs
          exact congrArg (c :: ·) h2

theorem splitSlashL_append : ∀ as bs : List Char,
    splitSlashL (as ++ '/' :: bs) = splitSlashL as ++ splitSlashL bs := by
  intro as bs
  induction as with
  | nil => simp [splitSlashL, splitGroups, isSlashCh]
  | cons c as ih =>
    by_cases h : isSlashCh c
    · have hc : c = '/' := by simpa [isSlashCh] using h
      subst hc
      show splitSlashL ('/' :: (as ++ '/' :: bs)) = splitSlashL ('/' :: as) ++ splitSlashL bs
      have e1 : splitSlashL ('/' :: (as ++ '/' :: bs)) = [] :: splitSlashL (as ++ '/' :: bs) := by
        simp [splitSlashL, splitGroups, isSlashCh]
      have e2 : splitSlashL ('/' :: as) = [] :: splitSlashL as := by
        simp [splitSlashL, splitGroups, isSlashCh]
      rw [e1, e2, ih]
      rfl
    · cases hr : splitSlashL as with
      | nil => exact absurd hr (splitGroups_ne_nil _ _)
      | cons g gs =>
        have h2 : splitGroups isSlashCh (as ++ '/' :: bs) = g :: (gs ++ splitSlashL bs) := by
          show splitSlashL (as ++ '/' :: bs) = _
          rw [ih, hr]; rfl
        have hr2 : splitGroups isSlashCh as = g :: gs := hr
        have h1 : splitSlashL ((c :: as) ++ '/' :: bs) = (c :: g) :: (gs ++ splitSlashL bs) := by
          show splitSlashL (c :: (as ++ '/' :: bs)) = _
          simp [splitSlashL, splitGroups, h, h2]
        have h3 : splitSlashL (c :: as) = (c :: g) :: gs := by
          simp [splitSlashL, splitGroups, h, hr2]
        rw [h1, h3]
        rfl

theorem foldl_normStep_plain (abs : Bool) :
    ∀ (gs acc : List (List Char)), plainSegsB gs = true →
      gs.foldl (normStep abs) acc = acc ++ gs := by
  intro gs
  induction gs with
  | nil => intro acc _; simp
  | cons g gl ih =>
    intro acc hp
    have hpg : plainSeg g = true ∧ plainSegsB gl = true := by
      simpa [plainSegsB] using hp
    have h1 : ¬(g = [] ∨ g = ['.']) ∧ g ≠ ['.', '.'] := by
      have hx := hpg.1
      simp [plainSeg] at hx
      exact ⟨fun hor => hor.elim hx.1.1 hx.1.2, hx.2⟩
    show gl.foldl (normStep abs) (normStep abs acc g) = acc ++ g :: gl
    have hstep : normStep abs acc g = acc ++ [g] := by
      unfold normStep
      rw [if_neg h1.1, if_neg h1.2]
    rw [hstep, ih _ hpg.2, List.append_assoc]
    rfl

theorem dropCommonC_self : ∀ xs ys : List (List Char), dropCommonC xs (xs ++ ys) = ([], ys) := by
  intro xs ys
  induction xs with
  | nil => cases ys <;> rfl
  | cons a as ih =>
    show (if a = a then dropCommonC as (as ++ ys) else (a :: as, a :: (as ++ ys))) = ([], ys)
    rw [if_pos rfl, ih]

theorem plain_head_facts (a : String) (h : plainSegsB (splitSlashL a.data) = true) :
    a.data ≠ [] ∧ (a.data.head? == some '/') = false := by
  cases ha : a.data with
  | nil =>
    rw [ha] at h
    simp [splitSlashL, splitGroups, plainSegsB, plainSeg] at h
  | cons c t =>
    constructor
    · exact fun hh => List.noConfusion hh
    · by_cases hc : c = '/'
      · subst hc
        rw [ha] at h
        simp [splitSlashL, splitGroups, isSlashCh, plainSegsB, plainSeg] at h
      · simp [hc]

theorem normSegs_cons_nil (gs : List (List Char)) :
    normSegs true ([] :: gs) = normSegs true gs := rfl

theorem pathRelative_plain (cwd fp : String)
    (hc : isAbsolutePath cwd = true) (hf : isAbsolutePath fp = false)
    (hp : plainSegsB (splitSlashL fp.data) = true) :
    pathRelative cwd fp = fp := by
  obtain ⟨rest, hrest⟩ : ∃ rest, cwd.data = '/' :: rest := by
    unfold isAbsolutePath at hc
    cases hcw : cwd.data with
    | nil => rw [hcw] at hc; simp at hc
    | cons c t =>
      rw [hcw] at hc
      simp only [List.head?, beq_iff_eq, Option.some.injEq] at hc
      exact ⟨t, by rw [hc]⟩
  have hnot : ¬(isAbsolutePath fp = true) := by rw [hf]; exact Bool.false_ne_true
  have hf1 : resolveSegs cwd cwd = normSegs true (splitSlashL rest) := by
    unfold resolveSegs
    rw [if_pos hc, hrest]
    have e1 : splitSlashL ('/' :: rest) = [] :: splitSlashL rest := by
      simp [splitSlashL, splitGroups, isSlashCh]
    rw [e1, normSegs_cons_nil]
  have hf2 : resolveSegs cwd fp = normSegs true (splitSlashL rest) ++ splitSlashL fp.data := by
    unfold resolveSegs
    rw [if_neg hnot, hrest]
    have e0 : ('/' :: rest) ++ '/' :: fp.data = '/' :: (rest ++ '/' :: fp.data) := rfl
    rw [e0]
    have e1 : splitSlashL ('/' :: (rest ++ '/' :: fp.data))
        = [] :: splitSlashL (rest ++ '/' :: fp.data) := by
      simp [splitSlashL, splitGroups, isSlashCh]
    rw [e1, normSegs_cons_nil, splitSlashL_append]
    unfold normSegs
    rw [List.foldl_append]
    exact foldl_normStep_plain true _ _ hp
  unfold pathRelative
  rw [hf1, hf2, dropCommonC_self]
  simp only [List.map_nil, List.nil_append]
  apply strExt
  exact joinWith_splitSlashL fp.data

theorem pathJoin_plain (a b : String)
    (ha : plainSegsB (splitSlashL a.data) = true)
    (hb : plainSegsB (splitSlashL b.data) = true) :
    pathJoin a b = a ++ ("/") ++ b := by
  have hfa := plain_head_facts a ha
  have hfb := plain_head_facts b hb
  have hsa : a.data.isEmpty = false := by
    cases hd : a.data with
    | nil => exact absurd hd hfa.1
    | cons c t => rfl
  have hsb : b.data.isEmpty = false := by
    cases hd : b.data with
    | nil => exact absurd hd hfb.1
    | cons c t => rfl
  have hj : joinedChars a b = a.data ++ '/' :: b.data := by
    unfold joinedChars
    rw [if_neg (by rw [hsa]; exact Bool.false_ne_true),
      if_neg (by rw [hsb]; exact Bool.false_ne_true)]
  have hhead : ((a.data ++ '/' :: b.data).head? == some '/') = false := by
    cases hd : a.data with
    | nil => exact absurd hd hfa.1
    | cons c t =>
      have := hfa.2
      rw [hd] at this
      simpa using this
  have hsplit : splitSlashL (a.data ++ '/' :: b.data) = splitSlashL a.data ++ splitSlashL b.data :=
    splitSlashL_append _ _
  have hplain : plainSegsB (splitSlashL a.data ++ splitSlashL b.data) = true := by
    simp only [plainSegsB, List.all_append] at *
    rw [ha, hb]
    rfl
  have hnorm : normSegs false (splitSlashL (a.data ++ '/' :: b.data))
      = splitSlashL a.data ++ splitSlashL b.data := by
    rw [hsplit]
    exact foldl_normStep_plain false _ _ hplain
  have hne : (splitSlashL a.data ++ splitSlashL b.data).isEmpty = false := by
    cases hs : splitSlashL a.data with
    | nil => exact absurd hs (splitGroups_ne_nil _ _)
    | cons g gs => rfl
  unfold pathJoin pathJoinCore
  rw [hj, hhead]
  simp only [Bool.false_eq_true, if_false]
  rw [hnorm, hne]
  simp only [Bool.false_eq_true, if_false]
  apply strExt
  show joinWith '/' (splitSlashL a.data ++ splitSlashL b.data) = (a ++ ("/") ++ b).data
  rw [← hsplit, joinWith_splitSlashL]
  rw [strDataAppend, strDataAppend]
  simp

/-- C4: under the auto output mode the artifact path is the source path with
the declaration suffix appended in place; under an explicit output directory
it is that directory joined with the source path relative to the working
directory, with the suffix appended.  The two example mappings of the
specification hold. -/
theorem getOutputPath_spec :
    (∀ cwd filePath : String,
      getOutputPath (("auto")) cwd filePath = filePath ++ ((".d.ts")))
  ∧ (∀ output cwd filePath : String,
      output ≠ (("auto")) →
      isAbsolutePath cwd = true →
      isAbsolutePath filePath = false →
      plainSegsB (splitSlashL filePath.data) = true →
      plainSegsB (splitSlashL output.data) = true →
      plainSegsB (splitSlashL ((filePath ++ ((".d.ts"))).data)) = true →
      getOutputPath output cwd filePath = output ++ (("/")) ++ (filePath ++ ((".d.ts"))))
  ∧ getOutputPath (("auto")) (("/proj")) (("styles/test.css")) = (("styles/test.css.d.ts"))
  ∧ getOutputPath (("types")) (("/proj")) (("styles/test.css")) = (("types/styles/test.css.d.ts")) := by
  refine ⟨fun cwd fp => ?_, fun out cwd fp h1 h2 h3 h4 h5 h6 => ?_, rfl, rfl⟩
  · unfold getOutputPath
    rw [if_pos rfl]
  · unfold getOutputPath
    rw [if_neg h1, pathRelative_plain cwd fp h2 h3 h4]
    exact pathJoin_plain out (fp ++ ((".d.ts"))) h5 h6

/-- Witness for C4 at the example of the specification. -/
theorem getOutputPath_spec_witness :
    getOutputPath (("types")) (("/proj")) (("styles/test.css"))
      = (("types")) ++ (("/")) ++ ((("styles/test.css")) ++ ((".d.ts"))) :=
  (getOutputPath_spec).2.1 (("types")) (("/proj")) (("styles/test.css"))
    (by decide) (by decide) (by decide) (by decide) (by decide) (by decide)
